import Mathlib

/-!
Verification of the MatrixEngine of `src/main.cpp` (EECS348 Lab-08):
square-matrix loading, addition, multiplication, diagonal sums, row/column
swaps and single-element update.

The C++ `Matrix` is `std::vector<std::vector<int>>`; we embed it as
`List (List Int)`.  `std::vector::operator[]` performs no bounds check, so an
out-of-range access is undefined behavior in the source; reads that the source
performs only under a guard that makes them in-bounds are modelled with the
total accessors `rowAt`/`entry` (default `[]`/`0`), and the one read the
source performs *without* a sufficient guard (`matrixB[0]` in
`multiplyMatrices`) is modelled explicitly as the error
`MatrixError.outOfBoundsAccess`.  Exceptions (`throw std::runtime_error`)
become `Except.error MatrixError.dimensionMismatch`.  The in-place mutators
(`swapRows`, `swapCols`, `updateElement`) become functions returning the new
matrix state; their early-`return` diagnostic paths return the input
unchanged.
-/

namespace MatrixEngine

/-- The C++ type alias `using Matrix = std::vector<std::vector<int>>`:
a list of rows, each row a list of integers. -/
abbrev Matrix := List (List Int)

/-- Row access `matrix[i]`, total with default `[]` (used only where the
source guards `i` to be in bounds). -/
def rowAt (M : Matrix) (i : Nat) : List Int := M.getD i []

/-- Element access `matrix[i][j]`, total with default `0` (used only where the
source guards the indices to be in bounds). -/
def entry (M : Matrix) (i j : Nat) : Int := (rowAt M i).getD j 0

/-- Width of a matrix as the source computes it: `matrix[0].size()`, the
length of the first row (`0` for an empty matrix). -/
def width (M : Matrix) : Nat := (M.headD []).length

/-- The two failure modes of the arithmetic operations:
`dimensionMismatch` models `throw std::runtime_error(...)`;
`outOfBoundsAccess` models the undefined behavior of `matrixB[0]` on an
empty `std::vector` in `multiplyMatrices`. -/
inductive MatrixError where
  | dimensionMismatch : MatrixError
  | outOfBoundsAccess : MatrixError
deriving DecidableEq, Repr

/-- `addMatrices` (src/main.cpp lines 169-187).  Checks
`matrixA.empty() || matrixA.size() != matrixB.size() || matrixA[0].size() != matrixB[0].size()`
and throws on failure; otherwise builds `result(n, vector<int>(n))` with
`n = matrixA.size()` and fills `result[i][j] = matrixA[i][j] + matrixB[i][j]`
for `i < n`, `j < n`.  Note the result is n by n (n = the common height),
not n by width. -/
def addMatrices (matrixA matrixB : Matrix) : Except MatrixError Matrix :=
  if matrixA = [] ∨ matrixA.length ≠ matrixB.length ∨ width matrixA ≠ width matrixB then
    Except.error MatrixError.dimensionMismatch
  else
    let n := matrixA.length
    Except.ok ((List.range n).map fun i =>
      (List.range n).map fun j => entry matrixA i j + entry matrixB i j)

/-- `multiplyMatrices` (src/main.cpp lines 195-219).  Checks
`matrixA.empty() || matrixA[0].size() != matrixB.size()` and throws on
failure; then reads `m = matrixB[0].size()` — undefined behavior when
`matrixB` is empty (which the check does not rule out when `matrixA` has
zero-width rows), modelled as `outOfBoundsAccess`.  Otherwise builds
`result(n, vector<int>(m, 0))` and accumulates
`result[i][j] += matrixA[i][k] * matrixB[k][j]` for `k < p = matrixB.size()`. -/
def multiplyMatrices (matrixA matrixB : Matrix) : Except MatrixError Matrix :=
  if matrixA = [] ∨ width matrixA ≠ matrixB.length then
    Except.error MatrixError.dimensionMismatch
  else
    match matrixB with
    | [] => Except.error MatrixError.outOfBoundsAccess
    | firstRow :: _ =>
      let n := matrixA.length
      let m := firstRow.length
      let p := matrixB.length
      Except.ok ((List.range n).map fun i =>
        (List.range m).map fun j =>
          (List.range p).foldl (fun acc k => acc + entry matrixA i k * entry matrixB k j) 0)

/-- `sumDiagonals` (src/main.cpp lines 225-245).  Checks
`matrix.empty() || matrix.size() != matrix[0].size()` and reports an error
(here: `none`) on failure; otherwise accumulates
`mainDiagonalSum += matrix[i][i]` and
`secondaryDiagonalSum += matrix[i][n-1-i]` for `i < n` in `long long`
accumulators.  The accumulators are modelled as unbounded `Int`; theorem
`C4_sumDiagonals_spec` shows the sums stay far inside the signed 64-bit range
when the elements are 32-bit, so the model is exact for the source. -/
def sumDiagonals (matrix : Matrix) : Option (Int × Int) :=
  if matrix = [] ∨ matrix.length ≠ width matrix then none
  else
    let n := matrix.length
    some ((List.range n).foldl (fun acc i => acc + entry matrix i i) 0,
          (List.range n).foldl (fun acc i => acc + entry matrix i (n - 1 - i)) 0)

/-- `swapRows` (src/main.cpp lines 253-272).  Empty matrix or an index
outside `[0, n)`: diagnostic and no change.  Equal indices: no change.
Otherwise `std::swap(matrix[row1], matrix[row2])` (whole-row exchange). -/
def swapRows (matrix : Matrix) (row1 row2 : Int) : Matrix :=
  if matrix = [] then matrix
  else if row1 < 0 ∨ row1 ≥ (matrix.length : Int) ∨
      row2 < 0 ∨ row2 ≥ (matrix.length : Int) then matrix
  else if row1 = row2 then matrix
  else (matrix.set row1.toNat (rowAt matrix row2.toNat)).set row2.toNat
    (rowAt matrix row1.toNat)

/-- Common shape of `std::swap` on two slots of an indexed container: store
the old value of slot `b` into slot `a` and the old value of slot `a` into
slot `b`.  Both the whole-row exchange of `swapRows` and the per-row entry
exchange of `swapCols` are instances of this. -/
def listSwap {α : Type} (l : List α) (a b : Nat) (d : α) : List α :=
  (l.set a (l.getD b d)).set b (l.getD a d)

/-- Per-row body of the `swapCols` loop:
`std::swap(matrix[i][col1], matrix[i][col2])`. -/
def swapColsInRow (r : List Int) (c1 c2 : Nat) : List Int :=
  (r.set c1 (r.getD c2 0)).set c2 (r.getD c1 0)

/-- `swapCols` (src/main.cpp lines 280-303).  Empty matrix or empty first row,
or an index outside `[0, m)` with `m = matrix[0].size()`: diagnostic and no
change.  Equal indices: no change.  Otherwise swaps the two entries in every
row. -/
def swapCols (matrix : Matrix) (col1 col2 : Int) : Matrix :=
  if matrix = [] ∨ matrix.headD [] = [] then matrix
  else if col1 < 0 ∨ col1 ≥ (width matrix : Int) ∨
      col2 < 0 ∨ col2 ≥ (width matrix : Int) then matrix
  else if col1 = col2 then matrix
  else matrix.map fun r => swapColsInRow r col1.toNat col2.toNat

/-- `updateElement` (src/main.cpp lines 312-330).  Empty matrix or empty first
row, or `row` outside `[0, n)` or `col` outside `[0, m)`: diagnostic and no
change.  Otherwise `matrix[row][col] = newValue`. -/
def updateElement (matrix : Matrix) (row col : Int) (newValue : Int) : Matrix :=
  if matrix = [] ∨ matrix.headD [] = [] then matrix
  else if row < 0 ∨ row ≥ (matrix.length : Int) ∨
      col < 0 ∨ col ≥ (width matrix : Int) then matrix
  else matrix.set row.toNat ((rowAt matrix row.toNat).set col.toNat newValue)

/-- One whitespace-separated token of the input file: `some k` for a token
that parses as the integer `k`, `none` for a malformed token. -/
abbrev Token := Option Int

/-- One `inFile >> x` read: fails (`none`) at end of stream or on a token
that does not parse as an integer; otherwise yields the integer and the
rest of the stream. -/
def readInt : List Token → Option (Int × List Token)
  | Option.some k :: rest => some (k, rest)
  | _ => none

/-- The inner `for (j = 0; j < n; ++j) inFile >> matrix[i][j]` loop: reads
`w` integers into one row, failing if any read fails. -/
def readRow : Nat → List Token → Option (List Int × List Token)
  | 0, s => some ([], s)
  | j + 1, s =>
    match readInt s with
    | none => none
    | some (x, s1) =>
      match readRow j s1 with
      | none => none
      | some (xs, s2) => some (x :: xs, s2)

/-- The outer `for (i = 0; i < n; ++i)` loop: reads `h` rows of `w` integers
each, failing if any read fails. -/
def readRows : Nat → Nat → List Token → Option (Matrix × List Token)
  | 0, _, s => some ([], s)
  | i + 1, w, s =>
    match readRow w s with
    | none => none
    | some (r, s1) =>
      match readRows i w s1 with
      | none => none
      | some (rs, s2) => some (r :: rs, s2)

/-- `loadMatrices` (src/main.cpp lines 82-133), on the token stream of an
already-opened file.  Reads the size `n`, fails if the read fails or
`n <= 0`; then reads `n * n` integers row-major for matrix A and `n * n`
for matrix B, failing on any element read failure; returns `(n, A, B)` and
ignores whatever remains of the stream. -/
def loadMatrices (toks : List Token) : Option (Int × Matrix × Matrix) :=
  match readInt toks with
  | none => none
  | some (n, s1) =>
    if n ≤ 0 then none
    else
      match readRows n.toNat n.toNat s1 with
      | none => none
      | some (matrixA, s2) =>
        match readRows n.toNat n.toNat s2 with
        | none => none
        | some (matrixB, _) => some (n, matrixA, matrixB)

end MatrixEngine

namespace MatrixEngine

/-- Indexing with `getD` into a map over `List.range`. -/
theorem getD_map_range {α : Type} (f : Nat → α) {n i : Nat} (hi : i < n) (d : α) :
    ((List.range n).map f).getD i d = f i := by
  rw [List.getD_eq_getElem?_getD, List.getElem?_map, List.getElem?_range hi]
  rfl

/-- A left fold that adds `f k` for each `k < p` computes the finite sum,
in the same left-to-right accumulation order as the source loop. -/
theorem foldl_range_add_eq_sum (f : Nat → Int) (p : Nat) :
    (List.range p).foldl (fun acc k => acc + f k) 0 = ∑ k ∈ Finset.range p, f k := by
  induction p with
  | zero => rfl
  | succ p ih =>
    rw [List.range_succ, List.foldl_append, ih, Finset.sum_range_succ]
    rfl

/-- For a non-empty matrix whose rows all have length `m`, the width computed
from the first row is `m`. -/
theorem width_eq_of_rect (M : Matrix) (n m : Nat) (hM : M.length = n) (hn : 0 < n)
    (hMw : ∀ r ∈ M, r.length = m) : width M = m := by
  cases M with
  | nil =>
    rw [List.length_nil] at hM
    omega
  | cons r rs => exact hMw r (List.mem_cons_self r rs)

/-- Successful run of `addMatrices`: with A non-empty, equal heights and equal
first-row widths, the check passes and the n-by-n result is produced. -/
theorem addMatrices_ok (matrixA matrixB : Matrix)
    (hA : matrixA ≠ []) (hlen : matrixA.length = matrixB.length)
    (hw : width matrixA = width matrixB) :
    addMatrices matrixA matrixB =
      Except.ok ((List.range matrixA.length).map fun i =>
        (List.range matrixA.length).map fun j =>
          entry matrixA i j + entry matrixB i j) := by
  unfold addMatrices
  rw [if_neg]
  push_neg
  exact ⟨hA, hlen, hw⟩

/-- C3.  `addMatrices` throws `DimensionMismatch` exactly when A is empty, the
heights differ, or the first-row widths differ; `multiplyMatrices` throws
`DimensionMismatch` exactly when A is empty or A's width differs from B's
height.  (In the remaining cases `addMatrices` always produces a result;
`multiplyMatrices` produces either a result or — only in the zero-width corner
treated in C9 — an out-of-bounds access, never a `DimensionMismatch`.) -/
theorem C3_dimension_mismatch_exact (matrixA matrixB : Matrix) :
    (addMatrices matrixA matrixB = Except.error MatrixError.dimensionMismatch ↔
      matrixA = [] ∨ matrixA.length ≠ matrixB.length ∨ width matrixA ≠ width matrixB) ∧
    (multiplyMatrices matrixA matrixB = Except.error MatrixError.dimensionMismatch ↔
      matrixA = [] ∨ width matrixA ≠ matrixB.length) := by
  constructor
  · unfold addMatrices
    split
    next h => simp [h]
    next h => simp [h]
  · unfold multiplyMatrices
    split
    next h => simp [h]
    next h =>
      cases matrixB with
      | nil =>
        push_neg at h
        simpa using h
      | cons r rs =>
        push_neg at h
        simpa using h

/-- C5.  Every mutator called with an out-of-range row or column index, or on
an empty matrix, leaves the matrix exactly as it was (the source prints a
diagnostic and returns before touching the data). -/
theorem C5_mutators_out_of_range_noop (M : Matrix) (r1 r2 c1 c2 row col v : Int) :
    (M = [] ∨ r1 < 0 ∨ r1 ≥ (M.length : Int) ∨ r2 < 0 ∨ r2 ≥ (M.length : Int) →
      swapRows M r1 r2 = M) ∧
    (M = [] ∨ c1 < 0 ∨ c1 ≥ (width M : Int) ∨ c2 < 0 ∨ c2 ≥ (width M : Int) →
      swapCols M c1 c2 = M) ∧
    (M = [] ∨ row < 0 ∨ row ≥ (M.length : Int) ∨ col < 0 ∨ col ≥ (width M : Int) →
      updateElement M row col v = M) := by
  refine ⟨?_, ?_, ?_⟩
  · intro h
    unfold swapRows
    split
    next => rfl
    next hne =>
      rw [if_pos]
      rcases h with h | h | h | h | h
      · exact absurd h hne
      all_goals tauto
  · intro h
    unfold swapCols
    split
    next => rfl
    next hne =>
      rw [if_pos]
      rcases h with h | h | h | h | h
      · exact absurd (Or.inl h) hne
      all_goals tauto
  · intro h
    unfold updateElement
    split
    next => rfl
    next hne =>
      rw [if_pos]
      rcases h with h | h | h | h | h
      · exact absurd (Or.inl h) hne
      all_goals tauto

/-- C5 witness: a 2x2 matrix is unchanged by a row swap with row index 5, a
column swap with column index -1, and an element update with column index 2. -/
theorem C5_witness :
    swapRows [[1, 2], [3, 4]] 0 5 = [[1, 2], [3, 4]] ∧
    swapCols [[1, 2], [3, 4]] (-1) 0 = [[1, 2], [3, 4]] ∧
    updateElement [[1, 2], [3, 4]] 0 2 9 = [[1, 2], [3, 4]] :=
  have h := C5_mutators_out_of_range_noop [[1, 2], [3, 4]] 0 5 (-1) 0 0 2 9
  ⟨h.1 (by right; right; right; right; decide),
   h.2.1 (by right; left; decide),
   h.2.2 (by right; right; right; right; decide)⟩

/-- C1.  The claim quantifies over every non-empty A and B with
`width A = height B`, but at A = [[],[]] (two zero-width rows) and B = []
those hypotheses hold and `multiplyMatrices` does not return a matrix: the
dimension check passes and the source immediately evaluates
`matrixB[0].size()` on an empty vector (undefined behavior, modelled as
`outOfBoundsAccess`). -/
theorem C1_counterexample :
    ([[], []] : Matrix) ≠ [] ∧
    width ([[], []] : Matrix) = List.length ([] : Matrix) ∧
    multiplyMatrices [[], []] [] = Except.error MatrixError.outOfBoundsAccess := by
  exact ⟨by decide, rfl, rfl⟩

/-- C9.  The claim says the dimension check alone keeps the read of B's first
row in bounds; at A = [[]] and B = [] the check passes (A non-empty,
`width A = 0 = height B`) and the source reads `matrixB[0]` on an empty
vector — out of bounds. -/
theorem C9_counterexample :
    ([[]] : Matrix) ≠ [] ∧
    width ([[]] : Matrix) = List.length ([] : Matrix) ∧
    multiplyMatrices [[]] [] = Except.error MatrixError.outOfBoundsAccess := by
  exact ⟨by decide, rfl, rfl⟩

/-- C9 (amended: the check alone does not make the `matrixB[0]` read safe;
it does whenever A's width is positive).  If the dimension check passes
(A non-empty, `width A = height B`) and additionally `width A > 0`, then B is
non-empty, the read of `matrixB[0]` is in bounds, and multiplication returns
a result. -/
theorem C9_positive_width_safe (matrixA matrixB : Matrix)
    (hA : matrixA ≠ []) (hdim : width matrixA = matrixB.length)
    (hw : 0 < width matrixA) :
    matrixB ≠ [] ∧ ∃ C, multiplyMatrices matrixA matrixB = Except.ok C := by
  have hB : matrixB ≠ [] := by
    intro h
    rw [h] at hdim
    simp at hdim
    omega
  refine ⟨hB, ?_⟩
  unfold multiplyMatrices
  rw [if_neg (by push_neg; exact ⟨hA, hdim⟩)]
  cases matrixB with
  | nil => exact absurd rfl hB
  | cons r rs => exact ⟨_, rfl⟩

/-- C9 witness: for A = [[1]] and B = [[2]] the check passes with positive
width and multiplication returns a result. -/
theorem C9_witness :
    ([[2]] : Matrix) ≠ [] ∧ ∃ C, multiplyMatrices [[1]] [[2]] = Except.ok C :=
  C9_positive_width_safe [[1]] [[2]] (by decide) (by decide) (by decide)

/-- C2.  The claim includes rectangular non-square inputs, but `addMatrices`
sizes its result `n x n` with `n` the common height: for the 2x3 inputs
A = B = [[1,2,3],[4,5,6]] it returns the 2x2 matrix [[2,4],[8,10]], not the
element-wise sum [[2,4,6],[8,10,12]], so the third column of every row is
missing. -/
theorem C2_counterexample :
    addMatrices [[1, 2, 3], [4, 5, 6]] [[1, 2, 3], [4, 5, 6]] =
      Except.ok [[2, 4], [8, 10]] ∧
    ([[2, 4], [8, 10]] : Matrix) ≠ [[2, 4, 6], [8, 10, 12]] :=
  ⟨rfl, by decide⟩

/-- C2 (amended: restricted to square inputs, which is the only shape the
program ever feeds to `addMatrices`).  For non-empty square n-by-n matrices A
and B, `addMatrices` returns an n-by-n matrix C with
`C[i][j] = A[i][j] + B[i][j]` for all `i, j < n`, without touching A or B
(the embedding is pure, so inputs are unchanged by construction); in
particular `addMatrices A A` doubles every entry of A. -/
theorem C2_addMatrices_square (matrixA matrixB : Matrix) (n : Nat) (hn : 0 < n)
    (hA : matrixA.length = n) (hB : matrixB.length = n)
    (hAw : ∀ r ∈ matrixA, r.length = n) (hBw : ∀ r ∈ matrixB, r.length = n) :
    ∃ C, addMatrices matrixA matrixB = Except.ok C ∧
      C.length = n ∧ (∀ r ∈ C, r.length = n) ∧
      (∀ i < n, ∀ j < n, entry C i j = entry matrixA i j + entry matrixB i j) ∧
      ∃ D, addMatrices matrixA matrixA = Except.ok D ∧
        ∀ i < n, ∀ j < n, entry D i j = 2 * entry matrixA i j := by
  subst hA
  have hwA : width matrixA = matrixA.length :=
    width_eq_of_rect _ _ _ rfl hn hAw
  have hwB : width matrixB = matrixA.length :=
    width_eq_of_rect _ _ _ hB hn hBw
  have hAne : matrixA ≠ [] := by
    intro h
    rw [h] at hn
    simp at hn
  refine ⟨_, addMatrices_ok matrixA matrixB hAne hB.symm (by rw [hwA, hwB]),
    by simp, ?_, ?_, ?_⟩
  · intro r hr
    simp only [List.mem_map] at hr
    obtain ⟨i, _, rfl⟩ := hr
    simp
  · intro i hi j hj
    unfold entry rowAt
    rw [getD_map_range _ hi, getD_map_range _ hj]
  · refine ⟨_, addMatrices_ok matrixA matrixA hAne rfl rfl, ?_⟩
    intro i hi j hj
    unfold entry rowAt
    rw [getD_map_range _ hi, getD_map_range _ hj]
    ring

/-- C2 witness: the amended theorem applied to the square matrices
A = [[1,2],[3,4]] and B = [[5,6],[7,8]]. -/
theorem C2_witness :
    ∃ C, addMatrices [[1, 2], [3, 4]] [[5, 6], [7, 8]] = Except.ok C ∧
      C.length = 2 ∧ (∀ r ∈ C, r.length = 2) ∧
      (∀ i < 2, ∀ j < 2,
        entry C i j = entry [[1, 2], [3, 4]] i j + entry [[5, 6], [7, 8]] i j) ∧
      ∃ D, addMatrices [[1, 2], [3, 4]] [[1, 2], [3, 4]] = Except.ok D ∧
        ∀ i < 2, ∀ j < 2, entry D i j = 2 * entry [[1, 2], [3, 4]] i j :=
  C2_addMatrices_square [[1, 2], [3, 4]] [[5, 6], [7, 8]] 2 (by decide) rfl rfl
    (by decide) (by decide)

/-- C1 (amended: B additionally non-empty, i.e. the inner dimension is
positive — otherwise the source hits undefined behavior, see the
counterexample).  For non-empty rectangular A of width `w` and non-empty
rectangular B of height `w` and width `m`, `multiplyMatrices` returns a
matrix C of size `A.height x m` with
`C[i][j] = sum over k < w of A[i][k] * B[k][j]` (every entry starts at the
zero initializer and is accumulated left to right); the inputs are unchanged
(the embedding is pure). -/
theorem C1_multiplyMatrices_correct (matrixA matrixB : Matrix) (w m : Nat)
    (hA : matrixA ≠ []) (hAw : ∀ r ∈ matrixA, r.length = w)
    (hB : matrixB ≠ []) (hBh : matrixB.length = w)
    (hBw : ∀ r ∈ matrixB, r.length = m) :
    ∃ C, multiplyMatrices matrixA matrixB = Except.ok C ∧
      C.length = matrixA.length ∧ (∀ r ∈ C, r.length = m) ∧
      ∀ i < matrixA.length, ∀ j < m,
        entry C i j =
          ∑ k ∈ Finset.range w, entry matrixA i k * entry matrixB k j := by
  have hwA : width matrixA = w := by
    cases matrixA with
    | nil => exact absurd rfl hA
    | cons r rs => exact hAw r (List.mem_cons_self r rs)
  cases matrixB with
  | nil => exact absurd rfl hB
  | cons firstRow rest =>
    have hm : firstRow.length = m := hBw firstRow (List.mem_cons_self firstRow rest)
    unfold multiplyMatrices
    rw [if_neg (by push_neg; exact ⟨hA, by rw [hwA, hBh]⟩)]
    refine ⟨_, rfl, by simp, ?_, ?_⟩
    · intro r hr
      simp only [List.mem_map] at hr
      obtain ⟨i, _, rfl⟩ := hr
      simp [hm]
    · intro i hi j hj
      unfold entry rowAt
      rw [getD_map_range _ hi, getD_map_range _ (by rw [hm]; exact hj), hBh,
        foldl_range_add_eq_sum]

/-- C1 witness: the amended theorem applied to A = [[1,2],[3,4]] and
B = [[5,6],[7,8]]. -/
theorem C1_witness :
    ∃ C, multiplyMatrices [[1, 2], [3, 4]] [[5, 6], [7, 8]] = Except.ok C ∧
      C.length = 2 ∧ (∀ r ∈ C, r.length = 2) ∧
      ∀ i < 2, ∀ j < 2,
        entry C i j =
          ∑ k ∈ Finset.range 2,
            entry [[1, 2], [3, 4]] i k * entry [[5, 6], [7, 8]] k j :=
  C1_multiplyMatrices_correct [[1, 2], [3, 4]] [[5, 6], [7, 8]] 2 2
    (by decide) (by decide) (by decide) rfl (by decide)

/-- Row access at an in-bounds index is plain list indexing. -/
theorem rowAt_eq_getElem (M : Matrix) (i : Nat) (hi : i < M.length) :
    rowAt M i = M[i] := by
  rw [rowAt, List.getD_eq_getElem?_getD, List.getElem?_eq_getElem hi]
  rfl

/-- An in-bounds entry is an element of its (member) row, so any bound that
holds for all elements of the matrix holds for it. -/
theorem abs_entry_le (M : Matrix) (bound : Int) (i j : Nat)
    (hi : i < M.length) (hj : j < (rowAt M i).length)
    (hb : ∀ r ∈ M, ∀ x ∈ r, |x| ≤ bound) :
    |entry M i j| ≤ bound := by
  have h1 : rowAt M i ∈ M := by
    rw [rowAt_eq_getElem M i hi]
    exact List.getElem_mem hi
  have h2 : entry M i j ∈ rowAt M i := by
    unfold entry
    rw [List.getD_eq_getElem?_getD, List.getElem?_eq_getElem hj]
    exact List.getElem_mem hj
  exact hb _ h1 _ h2

/-- Any diagonal-style sum (one in-bounds entry per row) of an n-by-n matrix
with entries bounded by `bound` is bounded by `n * bound`. -/
theorem abs_sum_entries_le (M : Matrix) (n : Nat) (bound : Int)
    (hM : M.length = n) (hMw : ∀ r ∈ M, r.length = n)
    (g : Nat → Nat) (hg : ∀ i < n, g i < n)
    (hb : ∀ r ∈ M, ∀ x ∈ r, |x| ≤ bound) :
    |∑ i ∈ Finset.range n, entry M i (g i)| ≤ (n : Int) * bound := by
  calc |∑ i ∈ Finset.range n, entry M i (g i)|
      ≤ ∑ i ∈ Finset.range n, |entry M i (g i)| := Finset.abs_sum_le_sum_abs _ _
    _ ≤ (Finset.range n).card • bound := by
        refine Finset.sum_le_card_nsmul _ _ _ ?_
        intro i hi
        rw [Finset.mem_range] at hi
        have hrow : (rowAt M i).length = n := by
          have : rowAt M i ∈ M := by
            rw [rowAt_eq_getElem M i (by omega)]
            exact List.getElem_mem (by omega)
          exact hMw _ this
        exact abs_entry_le M bound i (g i) (by omega)
          (by rw [hrow]; exact hg i hi) hb
    _ = (n : Int) * bound := by
        rw [Finset.card_range, nsmul_eq_mul]

/-- C4.  `sumDiagonals` reports an error (and computes nothing) for an empty
or non-square matrix; for a non-empty square n-by-n matrix it produces
`mainSum = sum of M[i][i]` and `secondarySum = sum of M[i][n-1-i]` for
`i < n`, without mutating M (the embedding is pure).  The `long long`
accumulators are wide enough: when the `int` elements are 32-bit
(`|x| <= 2^31`) and `n <= 2^31`, both sums stay strictly inside the signed
64-bit range, so modelling the accumulation over unbounded integers is exact
for the source. -/
theorem C4_sumDiagonals_spec (M : Matrix) (n : Nat) :
    (M = [] ∨ M.length ≠ width M → sumDiagonals M = none) ∧
    (0 < n → M.length = n → (∀ r ∈ M, r.length = n) →
      sumDiagonals M =
        some (∑ i ∈ Finset.range n, entry M i i,
              ∑ i ∈ Finset.range n, entry M i (n - 1 - i)) ∧
      ((∀ r ∈ M, ∀ x ∈ r, |x| ≤ 2 ^ 31) → n ≤ 2 ^ 31 →
        |∑ i ∈ Finset.range n, entry M i i| < 2 ^ 63 ∧
        |∑ i ∈ Finset.range n, entry M i (n - 1 - i)| < 2 ^ 63)) := by
  constructor
  · intro h
    unfold sumDiagonals
    rw [if_pos h]
  · intro hn hM hMw
    have hwM : width M = n := width_eq_of_rect M n n hM hn hMw
    constructor
    · unfold sumDiagonals
      rw [if_neg (by
        push_neg
        refine ⟨?_, by rw [hM, hwM]⟩
        intro h
        rw [h] at hM
        simp at hM
        omega)]
      simp only [hM, foldl_range_add_eq_sum]
    · intro hb hn31
      have hmain := abs_sum_entries_le M n (2 ^ 31) hM hMw (fun i => i)
        (fun i hi => hi) hb
      have hsec := abs_sum_entries_le M n (2 ^ 31) hM hMw (fun i => n - 1 - i)
        (fun i hi => by show n - 1 - i < n; omega) hb
      have hcap : (n : Int) * 2 ^ 31 < 2 ^ 63 := by
        have : (n : Int) ≤ 2 ^ 31 := by exact_mod_cast hn31
        nlinarith
      exact ⟨lt_of_le_of_lt hmain hcap, lt_of_le_of_lt hsec hcap⟩

/-- C4 witness: the theorem applied to the non-square matrix [[1,2,3]] (error
case) and to the square matrix [[1,2],[3,4]] (whose diagonal sums are 5
and 5, both far inside the 64-bit range). -/
theorem C4_witness :
    sumDiagonals [[1, 2, 3]] = none ∧
    sumDiagonals [[1, 2], [3, 4]] = some (5, 5) ∧
    (5 : Int).natAbs < 2 ^ 63 :=
  ⟨(C4_sumDiagonals_spec [[1, 2, 3]] 1).1 (Or.inr (by decide)),
   by
    have h := (C4_sumDiagonals_spec [[1, 2], [3, 4]] 2).2 (by decide) rfl (by decide)
    rw [h.1]
    decide,
   by decide⟩

/-- Getting at an in-bounds index with a default is plain indexing. -/
theorem getD_eq_getElem {α : Type} (l : List α) (i : Nat) (d : α)
    (hi : i < l.length) : l.getD i d = l[i] := by
  rw [List.getD_eq_getElem?_getD, List.getElem?_eq_getElem hi]
  rfl

/-- Row access after overwriting that same row yields the new row. -/
theorem rowAt_set_self (M : Matrix) (a : Nat) (r : List Int)
    (ha : a < M.length) : rowAt (M.set a r) a = r := by
  unfold rowAt
  rw [List.getD_eq_getElem?_getD, List.getElem?_set_self ha]
  rfl

/-- Row access after overwriting a different row is unchanged. -/
theorem rowAt_set_ne (M : Matrix) (a i : Nat) (r : List Int)
    (h : a ≠ i) : rowAt (M.set a r) i = rowAt M i := by
  unfold rowAt
  rw [List.getD_eq_getElem?_getD, List.getElem?_set_ne h,
    ← List.getD_eq_getElem?_getD]

/-- Defaulted get after setting that same in-bounds slot yields the new
value. -/
theorem getD_set_self (l : List Int) (b : Nat) (v : Int)
    (hb : b < l.length) : (l.set b v).getD b 0 = v := by
  rw [List.getD_eq_getElem?_getD, List.getElem?_set_self hb]
  rfl

/-- Defaulted get after setting a different slot is unchanged. -/
theorem getD_set_ne (l : List Int) (b j : Nat) (v : Int)
    (h : b ≠ j) : (l.set b v).getD j 0 = l.getD j 0 := by
  rw [List.getD_eq_getElem?_getD, List.getElem?_set_ne h,
    ← List.getD_eq_getElem?_getD]

/-- Swapping a row with itself never changes the matrix (the source returns
before the exchange when the indices coincide). -/
theorem swapRows_same_index (M : Matrix) (r : Int) : swapRows M r r = M := by
  unfold swapRows
  split
  · rfl
  · split
    · rfl
    · rw [if_pos rfl]

/-- Swapping rows never changes the height. -/
theorem length_swapRows (M : Matrix) (r1 r2 : Int) :
    (swapRows M r1 r2).length = M.length := by
  unfold swapRows
  split
  · rfl
  · split
    · rfl
    · split
      · rfl
      · simp [List.length_set]

/-- Swapping two in-bounds slots never changes the length. -/
theorem length_listSwap {α : Type} (l : List α) (a b : Nat) (d : α) :
    (listSwap l a b d).length = l.length := by
  unfold listSwap
  simp [List.length_set]

/-- Slot-level description of an in-bounds two-slot swap: slot `a` now holds
what was at `b`, slot `b` holds what was at `a`, everything else is
untouched. -/
theorem getElem?_listSwap {α : Type} (l : List α) (a b : Nat) (d : α)
    (ha : a < l.length) (hb : b < l.length) (k : Nat) :
    (listSwap l a b d)[k]? =
      if k = a then l[b]? else if k = b then l[a]? else l[k]? := by
  have ea : l[a]? = some (l.getD a d) := by
    rw [List.getElem?_eq_getElem ha, getD_eq_getElem l a d ha]
  have eb : l[b]? = some (l.getD b d) := by
    rw [List.getElem?_eq_getElem hb, getD_eq_getElem l b d hb]
  unfold listSwap
  rw [List.getElem?_set, List.getElem?_set]
  simp only [List.length_set]
  by_cases hbk : b = k
  · rw [if_pos hbk, if_pos hb]
    by_cases hka : k = a
    · rw [if_pos hka, eb, show a = b by omega]
    · rw [if_neg hka, if_pos (by omega), ea]
  · rw [if_neg hbk]
    by_cases hak : a = k
    · rw [if_pos hak, if_pos ha, if_pos (by omega), eb]
    · rw [if_neg hak, if_neg (by omega), if_neg (by omega)]

/-- An in-bounds two-slot swap followed by the reverse swap restores the
list. -/
theorem listSwap_involution {α : Type} (l : List α) (a b : Nat) (d : α)
    (ha : a < l.length) (hb : b < l.length) :
    listSwap (listSwap l a b d) b a d = l := by
  have hlen : (listSwap l a b d).length = l.length := length_listSwap l a b d
  refine List.ext_getElem? fun k => ?_
  rw [getElem?_listSwap _ b a d (by omega) (by omega) k]
  by_cases hkb : k = b
  · rw [if_pos hkb, getElem?_listSwap l a b d ha hb a, if_pos rfl, hkb]
  · rw [if_neg hkb]
    by_cases hka : k = a
    · rw [if_pos hka, getElem?_listSwap l a b d ha hb b]
      by_cases hab : b = a
      · rw [if_pos hab, show b = k by omega]
      · rw [if_neg hab, if_pos rfl, show a = k by omega]
    · rw [if_neg hka, getElem?_listSwap l a b d ha hb k, if_neg hka, if_neg hkb]

/-- A valid, index-distinct `swapRows` call is exactly the two-slot swap of
whole rows. -/
theorem swapRows_eq_listSwap (M : Matrix) (r1 r2 : Int)
    (hM : M ≠ [])
    (h1 : 0 ≤ r1) (h1n : r1 < (M.length : Int))
    (h2 : 0 ≤ r2) (h2n : r2 < (M.length : Int)) (hne : r1 ≠ r2) :
    swapRows M r1 r2 = listSwap M r1.toNat r2.toNat [] := by
  unfold swapRows
  rw [if_neg hM, if_neg (by push_neg; omega), if_neg hne]
  rfl

/-- A valid row swap followed by the reverse swap restores the matrix. -/
theorem swapRows_involution (M : Matrix) (r1 r2 : Int)
    (h1 : 0 ≤ r1) (h1n : r1 < (M.length : Int))
    (h2 : 0 ≤ r2) (h2n : r2 < (M.length : Int)) :
    swapRows (swapRows M r1 r2) r2 r1 = M := by
  have hM : M ≠ [] := by
    intro h
    rw [h] at h1n
    simp at h1n
    omega
  by_cases hne : r1 = r2
  · subst hne
    rw [swapRows_same_index, swapRows_same_index]
  · have hlen : (swapRows M r1 r2).length = M.length := length_swapRows M r1 r2
    have hM2 : swapRows M r1 r2 ≠ [] := by
      intro h
      rw [h] at hlen
      apply hM
      rw [← List.length_eq_zero]
      simpa using hlen.symm
    have e1 := swapRows_eq_listSwap M r1 r2 hM h1 h1n h2 h2n hne
    have e2 := swapRows_eq_listSwap (swapRows M r1 r2) r2 r1 hM2
      h2 (by rw [hlen]; exact h2n) h1 (by rw [hlen]; exact h1n)
      (by omega)
    rw [e2, e1]
    exact listSwap_involution M r1.toNat r2.toNat [] (by omega) (by omega)

/-- Swapping a column with itself never changes the matrix. -/
theorem swapCols_same_index (M : Matrix) (c : Int) : swapCols M c c = M := by
  unfold swapCols
  split
  · rfl
  · split
    · rfl
    · rw [if_pos rfl]

/-- The per-row body of `swapCols` is exactly the two-slot swap of entries. -/
theorem swapColsInRow_eq_listSwap (r : List Int) (c1 c2 : Nat) :
    swapColsInRow r c1 c2 = listSwap r c1 c2 0 := rfl

/-- The per-row body of `swapCols` preserves the row length. -/
theorem length_swapColsInRow (r : List Int) (c1 c2 : Nat) :
    (swapColsInRow r c1 c2).length = r.length := by
  unfold swapColsInRow
  simp [List.length_set]

/-- Swapping two in-bounds columns of a row and then swapping them back
restores the row. -/
theorem swapColsInRow_involution (r : List Int) (c1 c2 : Nat)
    (h1 : c1 < r.length) (h2 : c2 < r.length) :
    swapColsInRow (swapColsInRow r c1 c2) c2 c1 = r := by
  rw [swapColsInRow_eq_listSwap, swapColsInRow_eq_listSwap]
  exact listSwap_involution r c1 c2 0 h1 h2

/-- A valid, index-distinct `swapCols` call is the per-row swap mapped over
the matrix. -/
theorem swapCols_eq_map (M : Matrix) (m : Nat) (c1 c2 : Int)
    (hM : M ≠ []) (hrect : ∀ r ∈ M, r.length = m)
    (h1 : 0 ≤ c1) (h1m : c1 < (m : Int))
    (h2 : 0 ≤ c2) (h2m : c2 < (m : Int)) (hne : c1 ≠ c2) :
    swapCols M c1 c2 = M.map fun r => swapColsInRow r c1.toNat c2.toNat := by
  have hm : 0 < m := by omega
  have hw : width M = m := by
    cases M with
    | nil => exact absurd rfl hM
    | cons r rs => exact hrect r (List.mem_cons_self r rs)
  have hhead : M.headD [] ≠ [] := by
    intro h
    have : width M = 0 := by rw [width, h]; rfl
    omega
  unfold swapCols
  rw [if_neg (by push_neg; exact ⟨hM, hhead⟩), if_neg (by rw [hw]; push_neg; omega),
    if_neg hne]

/-- A valid column swap followed by the reverse swap restores the matrix. -/
theorem swapCols_involution (M : Matrix) (m : Nat) (c1 c2 : Int)
    (hM : M ≠ []) (hrect : ∀ r ∈ M, r.length = m)
    (h1 : 0 ≤ c1) (h1m : c1 < (m : Int))
    (h2 : 0 ≤ c2) (h2m : c2 < (m : Int)) :
    swapCols (swapCols M c1 c2) c2 c1 = M := by
  by_cases hne : c1 = c2
  · subst hne
    rw [swapCols_same_index, swapCols_same_index]
  · rw [swapCols_eq_map M m c1 c2 hM hrect h1 h1m h2 h2m hne]
    have hrect2 : ∀ r ∈ M.map fun r => swapColsInRow r c1.toNat c2.toNat,
        r.length = m := by
      intro r hr
      simp only [List.mem_map] at hr
      obtain ⟨r0, hr0, rfl⟩ := hr
      rw [length_swapColsInRow]
      exact hrect r0 hr0
    have hM2 : M.map (fun r => swapColsInRow r c1.toNat c2.toNat) ≠ [] := by
      intro h
      exact hM (List.map_eq_nil_iff.mp h)
    rw [swapCols_eq_map _ m c2 c1 hM2 hrect2 h2 h2m h1 h1m (by omega),
      List.map_map]
    have : ∀ r ∈ M,
        ((fun r => swapColsInRow r c2.toNat c1.toNat) ∘
          fun r => swapColsInRow r c1.toNat c2.toNat) r = id r := by
      intro r hr
      have hl := hrect r hr
      exact swapColsInRow_involution r c1.toNat c2.toNat
        (by omega) (by omega)
    rw [List.map_congr_left this, List.map_id]

/-- C6.  For valid indices, swapping a row (or column) with itself is a
no-op, and a row (or column) swap followed by the reverse swap restores the
matrix exactly. -/
theorem C6_swap_noop_involution (M : Matrix) (m : Nat) (r1 r2 c1 c2 : Int)
    (hM : M ≠ [])
    (hr1 : 0 ≤ r1) (hr1n : r1 < (M.length : Int))
    (hr2 : 0 ≤ r2) (hr2n : r2 < (M.length : Int))
    (hrect : ∀ r ∈ M, r.length = m)
    (hc1 : 0 ≤ c1) (hc1m : c1 < (m : Int))
    (hc2 : 0 ≤ c2) (hc2m : c2 < (m : Int)) :
    swapRows M r1 r1 = M ∧
    swapRows (swapRows M r1 r2) r2 r1 = M ∧
    swapCols M c1 c1 = M ∧
    swapCols (swapCols M c1 c2) c2 c1 = M :=
  ⟨swapRows_same_index M r1,
   swapRows_involution M r1 r2 hr1 hr1n hr2 hr2n,
   swapCols_same_index M c1,
   swapCols_involution M m c1 c2 hM hrect hc1 hc1m hc2 hc2m⟩

/-- C6 witness: the theorem applied to the 2x2 matrix [[1,2],[3,4]] with row
indices 0, 1 and column indices 0, 1. -/
theorem C6_witness :
    swapRows [[1, 2], [3, 4]] 0 0 = [[1, 2], [3, 4]] ∧
    swapRows (swapRows [[1, 2], [3, 4]] 0 1) 1 0 = [[1, 2], [3, 4]] ∧
    swapCols [[1, 2], [3, 4]] 0 0 = [[1, 2], [3, 4]] ∧
    swapCols (swapCols [[1, 2], [3, 4]] 0 1) 1 0 = [[1, 2], [3, 4]] :=
  C6_swap_noop_involution [[1, 2], [3, 4]] 2 0 1 0 1 (by decide)
    (by decide) (by decide) (by decide) (by decide) (by decide)
    (by decide) (by decide) (by decide) (by decide)

/-- C7.  After a valid `updateElement(M, row, col, v)` the entry at
`(row, col)` is `v`, every other entry is unchanged, and the dimensions are
unchanged. -/
theorem C7_updateElement_spec (M : Matrix) (m : Nat) (row col v : Int)
    (hrect : ∀ r ∈ M, r.length = m)
    (hr : 0 ≤ row) (hrn : row < (M.length : Int))
    (hc : 0 ≤ col) (hcm : col < (m : Int)) :
    (updateElement M row col v).length = M.length ∧
    (∀ r ∈ updateElement M row col v, r.length = m) ∧
    entry (updateElement M row col v) row.toNat col.toNat = v ∧
    ∀ i j : Nat, i ≠ row.toNat ∨ j ≠ col.toNat →
      entry (updateElement M row col v) i j = entry M i j := by
  have hM : M ≠ [] := by
    intro h
    rw [h] at hrn
    simp at hrn
    omega
  have ha : row.toNat < M.length := by omega
  have hrowlen : (rowAt M row.toNat).length = m := by
    refine hrect _ ?_
    rw [rowAt_eq_getElem M row.toNat ha]
    exact List.getElem_mem ha
  have hb : col.toNat < (rowAt M row.toNat).length := by omega
  have hw : width M = m := by
    cases M with
    | nil => exact absurd rfl hM
    | cons r rs => exact hrect r (List.mem_cons_self r rs)
  have hhead : M.headD [] ≠ [] := by
    intro h
    have : width M = 0 := by rw [width, h]; rfl
    omega
  have hstep : updateElement M row col v =
      M.set row.toNat ((rowAt M row.toNat).set col.toNat v) := by
    unfold updateElement
    rw [if_neg (by push_neg; exact ⟨hM, hhead⟩), if_neg (by rw [hw]; push_neg; omega)]
  refine ⟨by rw [hstep]; simp, ?_, ?_, ?_⟩
  · intro r hr2
    rw [hstep] at hr2
    rcases List.mem_or_eq_of_mem_set hr2 with h | h
    · exact hrect r h
    · rw [h, List.length_set]
      exact hrowlen
  · rw [hstep]
    simp only [entry]
    rw [rowAt_set_self M row.toNat _ ha, getD_set_self _ _ _ (by omega)]
  · intro i j hij
    rw [hstep]
    simp only [entry]
    by_cases hi : i = row.toNat
    · subst hi
      have hj : j ≠ col.toNat := by tauto
      rw [rowAt_set_self M row.toNat _ ha, getD_set_ne _ _ _ _ (by omega)]
    · rw [rowAt_set_ne M row.toNat i _ (by omega)]

/-- C7 witness: updating entry (0, 1) of [[1,2],[3,4]] to 9 gives 9 there,
keeps the other entries, and keeps the 2x2 shape. -/
theorem C7_witness :
    (updateElement [[1, 2], [3, 4]] 0 1 9).length = 2 ∧
    (∀ r ∈ updateElement [[1, 2], [3, 4]] 0 1 9, r.length = 2) ∧
    entry (updateElement [[1, 2], [3, 4]] 0 1 9) 0 1 = 9 ∧
    ∀ i j : Nat, i ≠ 0 ∨ j ≠ 1 →
      entry (updateElement [[1, 2], [3, 4]] 0 1 9) i j =
        entry [[1, 2], [3, 4]] i j :=
  C7_updateElement_spec [[1, 2], [3, 4]] 2 0 1 9 (by decide) (by decide)
    (by decide) (by decide) (by decide)

/-- C8.  The claim asserts `diagonalSums([[1,2],[3,4]])` has secondary sum 4,
but the code sums `matrix[0][1] + matrix[1][0] = 2 + 3 = 5`: the claimed
value 4 is wrong. -/
theorem C8_counterexample :
    sumDiagonals [[1, 2], [3, 4]] = some (5, 5) ∧ (5 : Int) ≠ 4 := by
  constructor
  · rfl
  · decide

/-- C8 (amended: the secondary diagonal sum of A is 5, not 4).  For
A = [[1,2],[3,4]] and B = [[5,6],[7,8]]: A + B = [[6,8],[10,12]],
A * B = [[19,22],[43,50]], and the diagonal sums of A are (main 5,
secondary 5). -/
theorem C8_concrete_scenario :
    addMatrices [[1, 2], [3, 4]] [[5, 6], [7, 8]] = Except.ok [[6, 8], [10, 12]] ∧
    multiplyMatrices [[1, 2], [3, 4]] [[5, 6], [7, 8]] = Except.ok [[19, 22], [43, 50]] ∧
    sumDiagonals [[1, 2], [3, 4]] = some (5, 5) := by
  refine ⟨?_, ?_, ?_⟩ <;> rfl

/-- A successful `readInt` consumed exactly one well-formed integer token off
the front of the stream. -/
theorem readInt_some {s : List Token} {x : Int} {s1 : List Token}
    (h : readInt s = some (x, s1)) : s = Option.some x :: s1 := by
  cases s with
  | nil => exact absurd h (by simp [readInt])
  | cons t rest =>
    cases t with
    | none => exact absurd h (by simp [readInt])
    | some k =>
      simp [readInt] at h
      rw [h.1, h.2]

/-- A successful `readRow` read exactly `w` integers off the front of the
stream, in order. -/
theorem readRow_some (w : Nat) :
    ∀ (s : List Token) (xs : List Int) (s2 : List Token),
      readRow w s = some (xs, s2) →
      xs.length = w ∧ s = xs.map Option.some ++ s2 := by
  induction w with
  | zero =>
    intro s xs s2 h
    simp [readRow] at h
    obtain ⟨rfl, rfl⟩ := h
    exact ⟨rfl, by simp⟩
  | succ j ih =>
    intro s xs s2 h
    rw [readRow] at h
    split at h
    next => exact absurd h (by simp)
    next x s1 hri =>
      split at h
      next => exact absurd h (by simp)
      next ys s3 hrr =>
        simp at h
        obtain ⟨rfl, rfl⟩ := h
        obtain ⟨hl, hs⟩ := ih s1 ys s3 hrr
        refine ⟨by simp [hl], ?_⟩
        rw [readInt_some hri, hs]
        simp

/-- A successful `readRows` read exactly `h` rows of `w` integers each off
the front of the stream, row-major. -/
theorem readRows_some (h w : Nat) :
    ∀ (s : List Token) (rs : Matrix) (s2 : List Token),
      readRows h w s = some (rs, s2) →
      rs.length = h ∧ (∀ r ∈ rs, r.length = w) ∧
        s = rs.flatten.map Option.some ++ s2 := by
  induction h with
  | zero =>
    intro s rs s2 hrd
    simp [readRows] at hrd
    obtain ⟨rfl, rfl⟩ := hrd
    exact ⟨rfl, by simp, by simp⟩
  | succ i ih =>
    intro s rs s2 hrd
    rw [readRows] at hrd
    split at hrd
    next => exact absurd hrd (by simp)
    next r s1 hrw =>
      split at hrd
      next => exact absurd hrd (by simp)
      next rs0 s3 hrs =>
        simp at hrd
        obtain ⟨rfl, rfl⟩ := hrd
        obtain ⟨hrl, hrw2⟩ := readRow_some w s r s1 hrw
        obtain ⟨hl, hall, hs⟩ := ih s1 rs0 s3 hrs
        refine ⟨by simp [hl], ?_, ?_⟩
        · intro rr hrr2
          rcases List.mem_cons.mp hrr2 with hh | hh
          · rw [hh]
            exact hrl
          · exact hall rr hh
        · rw [hrw2, hs]
          simp

/-- Reading a row of the right length from its own token image succeeds and
leaves exactly the rest of the stream. -/
theorem readRow_append (xs : List Int) (s : List Token) :
    readRow xs.length (xs.map Option.some ++ s) = some (xs, s) := by
  induction xs generalizing s with
  | nil => rfl
  | cons x ys ih => simp [readRow, readInt, ih]

/-- Reading a block of rows of the right shape from its own token image
succeeds and leaves exactly the rest of the stream. -/
theorem readRows_append (rs : Matrix) (w : Nat) (s : List Token) :
    (∀ r ∈ rs, r.length = w) →
    readRows rs.length w (rs.flatten.map Option.some ++ s) = some (rs, s) := by
  induction rs generalizing s with
  | nil =>
    intro _
    rfl
  | cons r rs0 ih =>
    intro hw
    have hr : r.length = w := hw r (List.mem_cons_self r rs0)
    have hw0 : ∀ x ∈ rs0, x.length = w :=
      fun x hx => hw x (List.mem_cons_of_mem _ hx)
    have h1 : readRow w (r.map Option.some ++ (rs0.flatten.map Option.some ++ s)) =
        some (r, rs0.flatten.map Option.some ++ s) := by
      rw [← hr]
      exact readRow_append r _
    have h2 := ih s hw0
    simp only [List.length_cons, List.flatten_cons, List.map_append,
      List.append_assoc, readRows, h1, h2]

/-- C10.  Whenever `loadMatrices` succeeds it has read a size `n >= 1` and
produced two n-by-n matrices A and B filled row-major from the first
`2 * n * n` integer tokens after the size token; whatever follows those
tokens (well-formed or not) is ignored and can never make the load fail. -/
theorem C10_loadMatrices_spec (toks rest : List Token) (n : Int)
    (matrixA matrixB : Matrix)
    (h : loadMatrices toks = some (n, matrixA, matrixB)) :
    1 ≤ n ∧
    matrixA.length = n.toNat ∧ (∀ r ∈ matrixA, r.length = n.toNat) ∧
    matrixB.length = n.toNat ∧ (∀ r ∈ matrixB, r.length = n.toNat) ∧
    (∃ r, toks =
      Option.some n ::
        ((matrixA.flatten ++ matrixB.flatten).map Option.some ++ r)) ∧
    loadMatrices
        (Option.some n ::
          ((matrixA.flatten ++ matrixB.flatten).map Option.some ++ rest)) =
      some (n, matrixA, matrixB) := by
  unfold loadMatrices at h
  split at h
  next => exact absurd h (by simp)
  next n0 s1 hri =>
    split at h
    next hn => exact absurd h (by simp)
    next hn =>
      split at h
      next => exact absurd h (by simp)
      next A0 s2 hra =>
        split at h
        next => exact absurd h (by simp)
        next B0 s3 hrb =>
          simp at h
          obtain ⟨rfl, rfl, rfl⟩ := h
          obtain ⟨hAl, hAw, hAs⟩ := readRows_some n0.toNat n0.toNat s1 A0 s2 hra
          obtain ⟨hBl, hBw, hBs⟩ := readRows_some n0.toNat n0.toNat s2 B0 s3 hrb
          have htoks : toks =
              Option.some n0 ::
                ((A0.flatten ++ B0.flatten).map Option.some ++ s3) := by
            rw [readInt_some hri, hAs, hBs]
            simp
          refine ⟨by omega, hAl, hAw, hBl, hBw, ⟨s3, htoks⟩, ?_⟩
          have hload1 : readRows n0.toNat n0.toNat
              (A0.flatten.map Option.some ++
                (B0.flatten.map Option.some ++ rest)) =
              some (A0, B0.flatten.map Option.some ++ rest) := by
            have hh := readRows_append A0 n0.toNat
              (B0.flatten.map Option.some ++ rest) hAw
            rw [hAl] at hh
            exact hh
          have hload2 : readRows n0.toNat n0.toNat
              (B0.flatten.map Option.some ++ rest) = some (B0, rest) := by
            have hh := readRows_append B0 n0.toNat rest hBw
            rw [hBl] at hh
            exact hh
          have e1 : (A0.flatten ++ B0.flatten).map Option.some ++ rest =
              A0.flatten.map Option.some ++
                (B0.flatten.map Option.some ++ rest) := by
            simp
          unfold loadMatrices
          simp only [e1, readInt, if_neg hn, hload1, hload2]

/-- C10 witness: the token stream `1 5 7` followed by one malformed trailing
token loads n = 1, A = [[5]], B = [[7]]; the trailing junk is ignored. -/
theorem C10_witness :
    1 ≤ (1 : Int) ∧
    ([[5]] : Matrix).length = (1 : Int).toNat ∧
    (∀ r ∈ ([[5]] : Matrix), r.length = (1 : Int).toNat) ∧
    ([[7]] : Matrix).length = (1 : Int).toNat ∧
    (∀ r ∈ ([[7]] : Matrix), r.length = (1 : Int).toNat) ∧
    (∃ r, [Option.some 1, Option.some 5, Option.some 7, Option.none] =
      Option.some 1 ::
        ((([[5]] : Matrix).flatten ++ ([[7]] : Matrix).flatten).map Option.some
          ++ r)) ∧
    loadMatrices
        (Option.some 1 ::
          ((([[5]] : Matrix).flatten ++ ([[7]] : Matrix).flatten).map Option.some
            ++ [Option.none])) =
      some (1, [[5]], [[7]]) :=
  C10_loadMatrices_spec
    [Option.some 1, Option.some 5, Option.some 7, Option.none]
    [Option.none] 1 [[5]] [[7]] (by rfl)

end MatrixEngine
